import Mathlib

/-!
A verification development for the `scm-record` change selector and its
`scm-diff-editor` front end.

The definitions below are a shallow embedding of the Rust sources:

* `scm-record/src/types.rs`: the change model (`FileMode`, `Section`,
  `File`, `Tristate`, `SelectedContents`) and its operations
  (`File::get_selected_contents`, `tristate`, `set_checked`, `toggle_all`);
* `scm-diff-editor/src/lib.rs`: `apply_changes` (modelled as the trace of
  filesystem operations it performs) and the file-mode classification of
  `RealFilesystem::read_file_info`;
* `scm-diff-editor/src/render.rs`: `make_conflict_markers` and the
  conflict-parser state machine of `create_merge`.

Rust `usize` values appearing here (file modes) are modelled as `Nat`;
the program never performs arithmetic on them that could overflow, so no
modular reduction is needed. Rust `String`s are modelled as Lean `String`s
and paths as lists of path components.
-/

namespace ScmRecord

/-- A filesystem path, as its list of components. `Path::join` appends a
relative path's components and `Path::parent` drops the last component
(returning `None` for the empty path), mirroring the Rust `Path` operations
used by `apply_changes`. -/
abbrev FsPath := List String

/-- `FileMode` from `types.rs`: `Unix(usize)` or `Absent`. -/
inductive FileMode where
  | Unix (mode : Nat)
  | Absent
  deriving DecidableEq, Repr

/-- The strict ordering on `FileMode` derived by Rust's
`#[derive(PartialOrd, Ord)]`: variants compare in declaration order
(`Unix` before `Absent`), and two `Unix` values compare by their numeric
mode. -/
def FileMode.lt : FileMode → FileMode → Bool
  | .Unix a, .Unix b => decide (a < b)
  | .Unix _, .Absent => true
  | .Absent, _ => false

/-- One digit of an octal rendering, as a character. -/
def octalDigitChar (d : Nat) : Char := Char.ofNat (48 + d)

/-- Fuel-driven core of the octal rendering (the fuel is an upper bound on
the number of digits, in the style of `Nat.toDigitsCore`). -/
def natToOctalCore : Nat → Nat → List Char → List Char
  | 0, _, acc => acc
  | fuel + 1, n, acc =>
    let d := octalDigitChar (n % 8)
    let n' := n / 8
    if n' = 0 then d :: acc else natToOctalCore fuel n' (d :: acc)

/-- Octal rendering of a `Nat`, as produced by Rust's `{mode:o}` format. -/
def natToOctal (n : Nat) : List Char := natToOctalCore (n + 1) n []

/-- The `Display` implementation for `FileMode` from `types.rs`:
`Unix(mode)` renders as `mode` in octal and `Absent` renders as
`<absent>`. Rendered as a list of characters (all ASCII, so character
order coincides with Rust's byte order on the rendered strings). -/
def FileMode.displayChars : FileMode → List Char
  | .Unix mode => natToOctal mode
  | .Absent => "<absent>".toList

/-- Byte-lexicographic (here: codepoint-lexicographic) strict order on
rendered strings, as Rust's `str` ordering. -/
def lexLt : List Char → List Char → Bool
  | [], [] => false
  | [], _ :: _ => true
  | _ :: _, [] => false
  | a :: xs, b :: ys =>
    if a.val < b.val then true
    else if b.val < a.val then false
    else lexLt xs ys

/-- `Tristate` from `types.rs`. -/
inductive Tristate where
  | False
  | Partial
  | True
  deriving DecidableEq, Repr

/-- `ChangeType` from `types.rs`. -/
inductive ChangeType where
  | Added
  | Removed
  deriving DecidableEq, Repr

/-- `SectionChangedLine` from `types.rs`. -/
structure SectionChangedLine where
  is_checked : Bool
  change_type : ChangeType
  line : String
  deriving DecidableEq, Repr

/-- `Section` from `types.rs`. -/
inductive Section where
  /-- Context lines; not selectable. -/
  | Unchanged (lines : List String)
  /-- A block of added/removed lines, each independently selectable. -/
  | Changed (lines : List SectionChangedLine)
  /-- A file mode change, with the target mode. -/
  | FileMode (is_checked : Bool) (mode : FileMode)
  /-- A binary contents change. -/
  | Binary (is_checked : Bool) (old_description new_description : Option String)
  deriving DecidableEq, Repr

/-- `File` from `types.rs` (paths are display-only data for the change
model; `apply_changes` joins them onto the write root). -/
structure File where
  old_path : Option FsPath
  path : FsPath
  file_mode : FileMode
  sections : List Section
  deriving DecidableEq, Repr

/-- `Commit` from `types.rs`. -/
structure Commit where
  message : Option String
  deriving DecidableEq, Repr

/-- `RecordState` from `types.rs`. -/
structure RecordState where
  is_read_only : Bool
  commits : List Commit
  files : List File
  deriving DecidableEq, Repr

/-- `SelectedContents` from `types.rs`. -/
inductive SelectedContents where
  | Unchanged
  | Binary (old_description new_description : Option String)
  | Text (contents : String)
  deriving DecidableEq, Repr

/-- `SelectedContents::push_str` from `types.rs`: pushing onto `Unchanged`
turns it into `Text`, pushing onto `Binary` does nothing, pushing onto
`Text` appends. -/
def SelectedContents.push_str : SelectedContents → String → SelectedContents
  | .Unchanged, s => .Text s
  | .Binary od nd, _ => .Binary od nd
  | .Text contents, s => .Text (contents ++ s)

/-- `SelectedChanges` from `types.rs`. -/
structure SelectedChanges where
  file_mode : FileMode
  contents : SelectedContents
  deriving DecidableEq, Repr

/-- The `find_map` over sections in `File::get_selected_contents`,
locating the first `FileMode` section and returning `(mode, is_checked)`. -/
def fileModeSectionOf (sections : List Section) : Option (FileMode × Bool) :=
  sections.findSome? fun sec =>
    match sec with
    | .Unchanged _ | .Changed _ | .Binary _ _ _ => none
    | .FileMode is_checked mode => some (mode, is_checked)

/-- The body of the `for line in lines` loop for an `Unchanged` section in
`File::get_selected_contents`: push the line to both accumulators. -/
def unchangedLineStep (acc : SelectedContents × SelectedContents) (line : String) :
    SelectedContents × SelectedContents :=
  (acc.1.push_str line, acc.2.push_str line)

/-- The body of the `for line in lines` loop for a `Changed` section in
`File::get_selected_contents`. -/
def changedLineStep (selected_file_mode : FileMode)
    (acc : SelectedContents × SelectedContents) (line : SectionChangedLine) :
    SelectedContents × SelectedContents :=
  match line.change_type, line.is_checked with
  | .Added, true | .Removed, false => (acc.1.push_str line.line, acc.2)
  | .Added, false | .Removed, true =>
    let acc_unselected := acc.2.push_str line.line
    -- Ensure that if the file existed before and still does, we never report
    -- Unchanged for the selected contents when all the lines are removed
    -- (i.e. we empty the file without deleting it).
    let acc_selected :=
      if selected_file_mode ≠ FileMode.Absent then acc.1.push_str "" else acc.1
    (acc_selected, acc_unselected)

/-- The body of the `for section in sections` loop of
`File::get_selected_contents`, processing one section against the pair
`(acc_selected, acc_unselected)` of accumulators. -/
def sectionStep (selected_file_mode : FileMode)
    (acc : SelectedContents × SelectedContents) (sec : Section) :
    SelectedContents × SelectedContents :=
  match sec with
  | .Unchanged lines => lines.foldl unchangedLineStep acc
  | .Changed lines => lines.foldl (changedLineStep selected_file_mode) acc
  | .FileMode _ _ => acc  -- handled outside of the loop
  | .Binary is_checked old_description new_description =>
    if is_checked then
      (.Binary old_description new_description, .Unchanged)
    else
      (.Unchanged, .Binary old_description new_description)

/-- The `selected_file_mode` local of `File::get_selected_contents`: the
first `FileMode` section's mode if it is checked, the file's original
mode otherwise. -/
def selectedFileModeOf (f : File) : FileMode :=
  match fileModeSectionOf f.sections with
  | some (change, true) => change
  | _ => f.file_mode

/-- The `unselected_file_mode` local of `File::get_selected_contents`:
the first `FileMode` section's mode if it is unchecked, the file's
original mode otherwise. -/
def unselectedFileModeOf (f : File) : FileMode :=
  match fileModeSectionOf f.sections with
  | some (change, false) => change
  | _ => f.file_mode

/-- `File::get_selected_contents` from `types.rs`. -/
def File.get_selected_contents (f : File) : SelectedChanges × SelectedChanges :=
  let selected_file_mode := selectedFileModeOf f
  let unselected_file_mode := unselectedFileModeOf f
  let acc :=
    f.sections.foldl (sectionStep selected_file_mode)
      (SelectedContents.Unchanged, SelectedContents.Unchanged)
  -- If an empty file was added, we won't have seen any lines, so ensure the
  -- selected (resp. unselected) contents is "" here.
  let acc_selected :=
    if f.file_mode = FileMode.Absent ∧ selected_file_mode ≠ FileMode.Absent ∧
        acc.1 = SelectedContents.Unchanged then
      acc.1.push_str ""
    else acc.1
  let acc_unselected :=
    if f.file_mode = FileMode.Absent ∧ unselected_file_mode ≠ FileMode.Absent ∧
        acc.2 = SelectedContents.Unchanged then
      acc.2.push_str ""
    else acc.2
  (⟨selected_file_mode, acc_selected⟩, ⟨unselected_file_mode, acc_unselected⟩)

/-! ### Tristate computation

Both `Section::tristate` and `File::tristate` thread a `seen_value :
Option<bool>` through every checkable boolean in order (each `Changed`
line's `is_checked`, and the `is_checked` of each `FileMode`/`Binary`
section), returning `Partial` early on the first disagreement and
otherwise `True` exactly when the final `seen_value` is `Some(true)`.
`tristateOfFlags` renders that loop as a recursion over the list of
checkable booleans, and `checkFlags` extracts that list. -/

/-- The checkable booleans contributed by a section, in order: one per
`Changed` line, one for a `FileMode` or `Binary` section, none for
`Unchanged`. -/
def Section.checkFlags : Section → List Bool
  | .Unchanged _ => []
  | .Changed lines => lines.map (·.is_checked)
  | .FileMode is_checked _ => [is_checked]
  | .Binary is_checked _ _ => [is_checked]

/-- The `seen_value` loop shared by `Section::tristate` and
`File::tristate` (the `return Tristate::Partial` arms become the
non-recursive `Partial` case). -/
def tristateOfFlags : Option Bool → List Bool → Tristate
  | seen, [] =>
    match seen with
    | some true => .True
    | none | some false => .False
  | none, b :: rest => tristateOfFlags (some b) rest
  | some true, true :: rest => tristateOfFlags (some true) rest
  | some false, false :: rest => tristateOfFlags (some false) rest
  | some _, _ :: _ => .Partial

/-- `Section::tristate` from `types.rs`. -/
def Section.tristate (s : Section) : Tristate :=
  tristateOfFlags none s.checkFlags

/-- `File::tristate` from `types.rs`: the same loop, over every checkable
boolean of every section in order. -/
def File.tristate (f : File) : Tristate :=
  tristateOfFlags none (f.sections.flatMap Section.checkFlags)

/-- `Section::set_checked` from `types.rs`. -/
def Section.set_checked (s : Section) (checked : Bool) : Section :=
  match s with
  | .Unchanged lines => .Unchanged lines
  | .Changed lines => .Changed (lines.map fun line => { line with is_checked := checked })
  | .FileMode _ mode => .FileMode checked mode
  | .Binary _ od nd => .Binary checked od nd

/-- `Section::toggle_all` from `types.rs`. -/
def Section.toggle_all (s : Section) : Section :=
  match s with
  | .Unchanged lines => .Unchanged lines
  | .Changed lines => .Changed (lines.map fun line => { line with is_checked := !line.is_checked })
  | .FileMode is_checked mode => .FileMode (!is_checked) mode
  | .Binary is_checked od nd => .Binary (!is_checked) od nd

/-- `File::set_checked` from `types.rs`. -/
def File.set_checked (f : File) (checked : Bool) : File :=
  { f with sections := f.sections.map (Section.set_checked · checked) }

/-- `File::toggle_all` from `types.rs`. -/
def File.toggle_all (f : File) : File :=
  { f with sections := f.sections.map Section.toggle_all }

/-- Whether a section holds at least one selectable item: a `Changed`
line, a `FileMode` item, or a `Binary` item. -/
def Section.hasSelectableItem : Section → Bool
  | .Unchanged _ => false
  | .Changed lines => !lines.isEmpty
  | .FileMode _ _ => true
  | .Binary _ _ _ => true

/-- Whether a file holds at least one selectable item in some section. -/
def File.hasSelectableItem (f : File) : Bool :=
  f.sections.any Section.hasSelectableItem

/-! ### Apply-changes (`scm-diff-editor/src/lib.rs`)

`apply_changes` consumes a `Filesystem` trait object; we model a run of
`apply_changes` as the sequence of filesystem operations it invokes
(every operation returns `Ok` in the in-memory test filesystem, and an
`Err` merely truncates the sequence, so the trace model captures the
successful behaviour exactly). -/

/-- One invocation of a `Filesystem` trait method performed by
`apply_changes`. -/
inductive FsOp where
  | remove_file (path : FsPath)
  | copy_file (old_path new_path : FsPath)
  | create_dir_all (path : FsPath)
  | write_file (path : FsPath) (contents : String)
  deriving DecidableEq, Repr

/-- `Path::parent`: drop the final component; the empty path has no
parent. -/
def pathParent (p : FsPath) : Option FsPath :=
  match p with
  | [] => none
  | _ :: _ => some p.dropLast

/-- The filesystem operations performed by the body of the
`for file in files` loop of `apply_changes` for one file. Note that the
`match` on the selected contents is *not* an `else` branch of the
`file_mode == Absent` test: both can contribute operations. -/
def applyFileOps (write_root : FsPath) (f : File) : List FsOp :=
  let file_path := write_root ++ f.path
  let selected_changes := f.get_selected_contents.1
  (if selected_changes.file_mode = FileMode.Absent then
    [FsOp.remove_file file_path]
  else []) ++
  (match selected_changes.contents with
  | .Unchanged => []
  | .Binary _ _ =>
    let old_path :=
      match f.old_path with
      | some old_path => old_path
      | none => file_path
    [FsOp.copy_file old_path file_path]
  | .Text contents =>
    (match pathParent file_path with
      | some parent_dir => [FsOp.create_dir_all parent_dir]
      | none => []) ++
    [FsOp.write_file file_path contents])

/-- `apply_changes` from `lib.rs`, as its trace of filesystem operations:
a read-only state performs none, otherwise the files are processed in
order. -/
def applyChangesOps (write_root : FsPath) (state : RecordState) : List FsOp :=
  if state.is_read_only then []
  else state.files.flatMap (applyFileOps write_root)

/-- The file-mode classification performed by
`RealFilesystem::read_file_info` in `lib.rs` (on a Unix platform), with
the filesystem queries abstracted as inputs: `metadata_found` is whether
`fs::metadata` succeeded (a `NotFound` error yields `Absent`),
`is_symlink` is `metadata.is_symlink()`, and `perm_mode` is
`metadata.permissions().mode()`. The executable test in the source is
`permissions.mode() & 0o001 == 0o001`. -/
def read_file_info_mode (metadata_found is_symlink : Bool) (perm_mode : Nat) : FileMode :=
  if !metadata_found then .Absent
  else if is_symlink then .Unix 0o120000
  else if perm_mode &&& 0o001 == 0o001 then .Unix 0o100755
  else .Unix 0o100644

/-! ### Concrete example values used by the witnesses below -/

/-- A concrete two-hunk file (the spec's scenario E1 after checking
`qux1` and `bar`), used to witness the partition law. -/
def exampleFileA : File :=
  ⟨none, ["right"], FileMode.Unix 33188,
    [Section.Changed [⟨false, ChangeType.Removed, "foo\n"⟩, ⟨true, ChangeType.Added, "qux1\n"⟩],
     Section.Unchanged ["common1\n"],
     Section.Changed [⟨true, ChangeType.Removed, "bar\n"⟩, ⟨false, ChangeType.Added, "qux2\n"⟩]]⟩

/-- A deletion where the mode change to `Absent` is checked but the
removed line is left unchecked: the selected contents are then
`Text "left\n"`, so `apply_changes` removes the file and immediately
rewrites it. -/
def c2ModeAbsentTextFile : File :=
  ⟨none, ["right"], FileMode.Unix 33188,
    [Section.FileMode true FileMode.Absent,
     Section.Changed [⟨false, ChangeType.Removed, "left\n"⟩]]⟩

/-- A fully-checked deletion: mode change to `Absent` checked and the
removed line checked, leaving the selected contents `Unchanged`. -/
def c2DeletionFile : File :=
  ⟨none, ["gone"], FileMode.Unix 33188,
    [Section.FileMode true FileMode.Absent,
     Section.Changed [⟨true, ChangeType.Removed, "left\n"⟩]]⟩

/-! ### Conflict markers (`scm-diff-editor/src/render.rs`) -/

/-- Rust's `str::contains(&str)`: substring occurrence, over the
character lists of the strings involved (all candidate needles here are
ASCII, where character occurrence and byte occurrence coincide). -/
def containsSub (hay needle : List Char) : Bool :=
  (List.range (hay.length + 1)).any fun i => needle.isPrefixOf (hay.drop i)

/-- A needle occurring as a substring is no longer than the haystack. -/
theorem length_le_of_containsSub {hay needle : List Char}
    (h : containsSub hay needle = true) : needle.length ≤ hay.length := by
  simp only [containsSub, List.any_eq_true, List.mem_range] at h
  obtain ⟨i, -, hpre⟩ := h
  have hp : needle <+: hay.drop i := by
    exact List.isPrefixOf_iff_prefix.mp hpre
  calc needle.length ≤ (hay.drop i).length := hp.length_le
    _ ≤ hay.length := by simp

/-- The collision test of `make_conflict_markers`: none of the four
candidate markers of length `len` occurs in `all`. -/
def markersOk (all : List Char) (len : Nat) : Bool :=
  !containsSub all (List.replicate len '<') &&
  !containsSub all (List.replicate len '|') &&
  !containsSub all (List.replicate len '=') &&
  !containsSub all (List.replicate len '>')

/-- Once the candidate length exceeds the haystack, no candidate marker
can occur as a substring. -/
theorem markersOk_of_length_lt (all : List Char) (len : Nat)
    (h : all.length < len) : markersOk all len = true := by
  have hc : ∀ c : Char, containsSub all (List.replicate len c) = false := by
    intro c
    cases hx : containsSub all (List.replicate len c) with
    | false => rfl
    | true =>
      have := length_le_of_containsSub hx
      simp only [List.length_replicate] at this
      omega
  simp [markersOk, hc]

/-- Candidate lengths below the haystack bound when the test fails. -/
theorem le_of_not_markersOk {all : List Char} {len : Nat}
    (h : ¬ markersOk all len = true) : len ≤ all.length := by
  by_contra hgt
  exact h (markersOk_of_length_lt all len (by omega))

/-- The `loop { ... len += 1 }` of `make_conflict_markers`: the first
length at or above `len` whose four candidate markers are all
collision-free. Termination is the argument of the source comment: each
iteration increases `len` by one, and once `len` exceeds `all.len()` the
test succeeds, so the measure `all.length + 1 - len` decreases. -/
def findMarkerLen (all : List Char) (len : Nat) : Nat :=
  if markersOk all len then len
  else findMarkerLen all (len + 1)
termination_by all.length + 1 - len
decreasing_by
  have := le_of_not_markersOk (by assumption)
  omega

/-- `make_conflict_markers` from `render.rs`: concatenate the inputs,
search for the first collision-free length starting at 7, and build the
four markers by repeating `<`, `|`, `=`, `>` to that length. -/
def make_conflict_markers (base left right : String) :
    String × String × String × String :=
  let all := (base ++ left ++ right).toList
  let len := findMarkerLen all 7
  (String.mk (List.replicate len '<'),
   String.mk (List.replicate len '|'),
   String.mk (List.replicate len '='),
   String.mk (List.replicate len '>'))

/-! ### The merge-conflict parser state machine (`create_merge`) -/

/-- `MarkerType` from `create_merge` in `render.rs`. -/
inductive MarkerType where
  | Left
  | BaseStart
  | BaseEnd
  | Right
  deriving DecidableEq, Repr

/-- `State` from `create_merge` in `render.rs`. -/
inductive MergeState where
  | Empty
  | Unchanged (lines : List String)
  | Left (left_lines : List String)
  | Base (left_lines base_lines : List String)
  | Right (left_lines base_lines right_lines : List String)
  deriving DecidableEq, Repr

/-- Rust's `str::starts_with(&str)`, over character lists (for valid
UTF-8 strings a byte prefix is exactly a character prefix). -/
def strStartsWith (s pre : String) : Bool :=
  pre.toList.isPrefixOf s.toList

/-- The marker classification at the top of `create_merge`'s parsing
loop: the line is tested against the left, base-start, base-end, and
right markers, in that order. -/
def classifyMarker (left_marker base_start_marker base_end_marker right_marker : String)
    (line : String) : Option MarkerType :=
  if strStartsWith line left_marker then some .Left
  else if strStartsWith line base_start_marker then some .BaseStart
  else if strStartsWith line base_end_marker then some .BaseEnd
  else if strStartsWith line right_marker then some .Right
  else none

/-- The `match (state, marker_type)` of `create_merge`'s parsing loop:
one step of the five-state machine, returning the new state and the
section emitted, if any. -/
def mergeStep (state : MergeState) (marker_type : Option MarkerType) (line : String) :
    MergeState × Option Section :=
  match state, marker_type with
  | .Empty, some .Left => (.Left [], none)
  | .Empty, _ => (.Unchanged [line], none)
  | .Unchanged lines, some .Left => (.Left [], some (.Unchanged lines))
  | .Unchanged lines, _ => (.Unchanged (lines ++ [line]), none)
  | .Left left_lines, some .BaseStart => (.Base left_lines [], none)
  | .Left left_lines, _ => (.Left (left_lines ++ [line]), none)
  | .Base left_lines base_lines, some .BaseEnd =>
    (.Right left_lines base_lines [], none)
  | .Base left_lines base_lines, _ =>
    (.Base left_lines (base_lines ++ [line]), none)
  | .Right left_lines base_lines right_lines, some .Right =>
    (.Empty, some (.Changed (
      left_lines.map (fun line => ⟨false, .Added, line⟩) ++
      base_lines.map (fun line => ⟨false, .Removed, line⟩) ++
      right_lines.map (fun line => ⟨false, .Added, line⟩))))
  | .Right left_lines base_lines right_lines, _ =>
    (.Right left_lines base_lines (right_lines ++ [line]), none)

/-- One full iteration of `create_merge`'s parsing loop: classify the
line against the four markers, then step the state machine. -/
def stepLine (left_marker base_start_marker base_end_marker right_marker : String)
    (state : MergeState) (line : String) : MergeState × Option Section :=
  mergeStep state
    (classifyMarker left_marker base_start_marker base_end_marker right_marker line) line

/-- The end-of-input handling of `create_merge`: an `Unchanged` state is
flushed as a section; `Left`/`Base`/`Right` states are logged
("Diff section not terminated") and discarded. -/
def mergeFinishSections : MergeState → List Section
  | .Empty => []
  | .Unchanged lines => [.Unchanged lines]
  | .Left _ | .Base _ _ | .Right _ _ _ => []

/-- The parsing phase of `create_merge`: fold the state machine over the
conflicted text's lines (as produced by `split_inclusive('\n')`) and
flush the final state. The `diffy` merge producing that text is an
external dependency and is not modelled. -/
def parseConflictLines (left_marker base_start_marker base_end_marker right_marker : String)
    (lines : List String) : List Section :=
  let acc :=
    lines.foldl
      (fun (acc : MergeState × List Section) line =>
        let step := stepLine left_marker base_start_marker base_end_marker right_marker
          acc.1 line
        (step.1,
          match step.2 with
          | some new_section => acc.2 ++ [new_section]
          | none => acc.2))
      (.Empty, [])
  acc.2 ++ mergeFinishSections acc.1

/-! ### The spec-side description of the two selection streams -/

/-- Whether a changed line belongs to the *selected* stream according to
the spec's partition law: `Removed` lines with `is_checked = false` and
`Added` lines with `is_checked = true`. -/
def specKeepSelected (line : SectionChangedLine) : Bool :=
  match line.change_type, line.is_checked with
  | .Removed, false => true
  | .Added, true => true
  | _, _ => false

/-- Whether a changed line belongs to the *unselected* stream according
to the spec's partition law: `Removed` lines with `is_checked = true` and
`Added` lines with `is_checked = false`. -/
def specKeepUnselected (line : SectionChangedLine) : Bool :=
  match line.change_type, line.is_checked with
  | .Removed, true => true
  | .Added, false => true
  | _, _ => false

/-- The lines a section contributes to a stream, per the spec's words:
every line of an `Unchanged` section, the kept lines of a `Changed`
section in order, and nothing from a `FileMode` section. (The partition
law is stated for files with no `Binary` section.) -/
def specStreamOfSection (keep : SectionChangedLine → Bool) : Section → List String
  | .Unchanged lines => lines
  | .Changed lines => (lines.filter keep).map (·.line)
  | .FileMode _ _ => []
  | .Binary _ _ _ => []

/-- Concatenation of a list of strings, in order. -/
def concatStrings : List String → String
  | [] => ""
  | s :: rest => s ++ concatStrings rest

/-- The stream a file yields per the spec's words: the contributions of
its sections, concatenated in section order. -/
def specStream (keep : SectionChangedLine → Bool) (f : File) : String :=
  concatStrings (f.sections.flatMap (specStreamOfSection keep))

/-- The text denoted by a `SelectedContents` value: `Text` carries its
contents and `Unchanged` denotes that nothing was pushed (empty text).
(`Binary` is mapped to `""` but the theorems below also prove the value
is never `Binary` where this function is used.) -/
def SelectedContents.textOrEmpty : SelectedContents → String
  | .Unchanged => ""
  | .Binary _ _ => ""
  | .Text contents => contents

/-- Whether a `SelectedContents` value is the `Binary` variant. -/
def SelectedContents.isBin : SelectedContents → Bool
  | .Binary _ _ => true
  | .Unchanged => false
  | .Text _ => false

/-- Whether a section is a `Binary` section. -/
def Section.isBinarySection : Section → Bool
  | .Binary _ _ _ => true
  | .Unchanged _ => false
  | .Changed _ => false
  | .FileMode _ _ => false

/-- Whether a file contains a `Binary` section. -/
def File.hasBinarySection (f : File) : Bool :=
  f.sections.any Section.isBinarySection

/-! ### Helper lemmas about strings and `push_str` -/

theorem string_append_assoc (a b c : String) : a ++ b ++ c = a ++ (b ++ c) := by
  apply String.ext
  simp

theorem concatStrings_append (xs ys : List String) :
    concatStrings (xs ++ ys) = concatStrings xs ++ concatStrings ys := by
  induction xs with
  | nil => simp [concatStrings, String.empty_append]
  | cons x xs ih => simp [concatStrings, ih, string_append_assoc]

theorem push_str_isBin (a : SelectedContents) (s : String) (h : a.isBin = false) :
    (a.push_str s).isBin = false := by
  cases a <;> simp_all [SelectedContents.push_str, SelectedContents.isBin]

theorem push_str_textOrEmpty (a : SelectedContents) (s : String) (h : a.isBin = false) :
    (a.push_str s).textOrEmpty = a.textOrEmpty ++ s := by
  cases a <;>
    simp_all [SelectedContents.push_str, SelectedContents.isBin,
      SelectedContents.textOrEmpty, String.empty_append]

/-- Invariant of the unchanged-lines loop: both accumulators stay
non-binary and their texts grow by the concatenation of the lines. -/
theorem unchangedFold_invariant (lines : List String) :
    ∀ a b : SelectedContents, a.isBin = false → b.isBin = false →
      (lines.foldl unchangedLineStep (a, b)).1.isBin = false ∧
      (lines.foldl unchangedLineStep (a, b)).2.isBin = false ∧
      (lines.foldl unchangedLineStep (a, b)).1.textOrEmpty
        = a.textOrEmpty ++ concatStrings lines ∧
      (lines.foldl unchangedLineStep (a, b)).2.textOrEmpty
        = b.textOrEmpty ++ concatStrings lines := by
  induction lines with
  | nil =>
    intro a b ha hb
    simp [concatStrings, String.append_empty, ha, hb]
  | cons l ls ih =>
    intro a b ha hb
    have step : unchangedLineStep (a, b) l = (a.push_str l, b.push_str l) := rfl
    simp only [List.foldl_cons, step]
    obtain ⟨h1, h2, h3, h4⟩ :=
      ih (a.push_str l) (b.push_str l) (push_str_isBin a l ha) (push_str_isBin b l hb)
    refine ⟨h1, h2, ?_, ?_⟩
    · rw [h3, push_str_textOrEmpty a l ha, string_append_assoc]
      simp [concatStrings]
    · rw [h4, push_str_textOrEmpty b l hb, string_append_assoc]
      simp [concatStrings]

/-- One changed line moves its text to exactly one of the two streams
(the `""` pushed to keep the selected side out of the `Unchanged` state
adds no text). -/
theorem changedLineStep_textOrEmpty (sfm : FileMode) (l : SectionChangedLine)
    (a b : SelectedContents) (ha : a.isBin = false) (hb : b.isBin = false) :
    (changedLineStep sfm (a, b) l).1.isBin = false ∧
    (changedLineStep sfm (a, b) l).2.isBin = false ∧
    (changedLineStep sfm (a, b) l).1.textOrEmpty
      = a.textOrEmpty ++ (if specKeepSelected l then l.line else "") ∧
    (changedLineStep sfm (a, b) l).2.textOrEmpty
      = b.textOrEmpty ++ (if specKeepUnselected l then l.line else "") := by
  obtain ⟨ck, ct, str⟩ := l
  cases ct <;> cases ck <;>
    · simp only [changedLineStep, specKeepSelected, specKeepUnselected]
      by_cases hm : sfm = FileMode.Absent <;>
        simp_all [push_str_isBin, push_str_textOrEmpty, String.append_empty]

/-- Invariant of the changed-lines loop: the selected stream grows by the
kept-for-selected lines and the unselected stream by the
kept-for-unselected lines, in order. -/
theorem changedFold_invariant (sfm : FileMode) (lines : List SectionChangedLine) :
    ∀ a b : SelectedContents, a.isBin = false → b.isBin = false →
      (lines.foldl (changedLineStep sfm) (a, b)).1.isBin = false ∧
      (lines.foldl (changedLineStep sfm) (a, b)).2.isBin = false ∧
      (lines.foldl (changedLineStep sfm) (a, b)).1.textOrEmpty
        = a.textOrEmpty ++ concatStrings ((lines.filter specKeepSelected).map (·.line)) ∧
      (lines.foldl (changedLineStep sfm) (a, b)).2.textOrEmpty
        = b.textOrEmpty ++ concatStrings ((lines.filter specKeepUnselected).map (·.line)) := by
  induction lines with
  | nil =>
    intro a b ha hb
    simp [concatStrings, String.append_empty, ha, hb]
  | cons l ls ih =>
    intro a b ha hb
    obtain ⟨hsb, hub, hst, hut⟩ := changedLineStep_textOrEmpty sfm l a b ha hb
    have hpair : changedLineStep sfm (a, b) l
        = ((changedLineStep sfm (a, b) l).1, (changedLineStep sfm (a, b) l).2) := rfl
    simp only [List.foldl_cons]
    rw [hpair]
    obtain ⟨h1, h2, h3, h4⟩ :=
      ih (changedLineStep sfm (a, b) l).1 (changedLineStep sfm (a, b) l).2 hsb hub
    refine ⟨h1, h2, ?_, ?_⟩
    · rw [h3, hst, string_append_assoc]
      by_cases hk : specKeepSelected l <;>
        simp [hk, List.filter_cons, concatStrings, String.empty_append]
    · rw [h4, hut, string_append_assoc]
      by_cases hk : specKeepUnselected l <;>
        simp [hk, List.filter_cons, concatStrings, String.empty_append]

/-- Invariant of one section step: each stream grows by the section's
spec-side contribution (for non-`Binary` sections). -/
theorem sectionStep_invariant (sfm : FileMode) (sec : Section)
    (hsec : sec.isBinarySection = false) (a b : SelectedContents)
    (ha : a.isBin = false) (hb : b.isBin = false) :
    (sectionStep sfm (a, b) sec).1.isBin = false ∧
    (sectionStep sfm (a, b) sec).2.isBin = false ∧
    (sectionStep sfm (a, b) sec).1.textOrEmpty
      = a.textOrEmpty ++ concatStrings (specStreamOfSection specKeepSelected sec) ∧
    (sectionStep sfm (a, b) sec).2.textOrEmpty
      = b.textOrEmpty ++ concatStrings (specStreamOfSection specKeepUnselected sec) := by
  cases sec with
  | Unchanged lines =>
    simpa [sectionStep, specStreamOfSection] using unchangedFold_invariant lines a b ha hb
  | Changed lines =>
    simpa [sectionStep, specStreamOfSection] using changedFold_invariant sfm lines a b ha hb
  | FileMode is_checked mode =>
    simp [sectionStep, specStreamOfSection, concatStrings, String.append_empty, ha, hb]
  | Binary is_checked od nd =>
    simp [Section.isBinarySection] at hsec

/-- Invariant of the whole `for section in sections` loop, for files that
have no `Binary` section. -/
theorem sectionsFold_invariant (sfm : FileMode) (secs : List Section)
    (hsecs : ∀ s ∈ secs, s.isBinarySection = false) :
    ∀ a b : SelectedContents, a.isBin = false → b.isBin = false →
      (secs.foldl (sectionStep sfm) (a, b)).1.isBin = false ∧
      (secs.foldl (sectionStep sfm) (a, b)).2.isBin = false ∧
      (secs.foldl (sectionStep sfm) (a, b)).1.textOrEmpty
        = a.textOrEmpty ++ concatStrings (secs.flatMap (specStreamOfSection specKeepSelected)) ∧
      (secs.foldl (sectionStep sfm) (a, b)).2.textOrEmpty
        = b.textOrEmpty ++ concatStrings (secs.flatMap (specStreamOfSection specKeepUnselected)) := by
  induction secs with
  | nil =>
    intro a b ha hb
    simp [concatStrings, String.append_empty, ha, hb]
  | cons s ss ih =>
    intro a b ha hb
    have hs : s.isBinarySection = false := hsecs s (by simp)
    obtain ⟨hsb, hub, hst, hut⟩ := sectionStep_invariant sfm s hs a b ha hb
    have hpair : sectionStep sfm (a, b) s
        = ((sectionStep sfm (a, b) s).1, (sectionStep sfm (a, b) s).2) := rfl
    simp only [List.foldl_cons]
    rw [hpair]
    obtain ⟨h1, h2, h3, h4⟩ :=
      ih (fun t ht => hsecs t (by simp [ht]))
        (sectionStep sfm (a, b) s).1 (sectionStep sfm (a, b) s).2 hsb hub
    refine ⟨h1, h2, ?_, ?_⟩
    · rw [h3, hst, string_append_assoc, List.flatMap_cons, concatStrings_append]
    · rw [h4, hut, string_append_assoc, List.flatMap_cons, concatStrings_append]

/-- The post-pass of `get_selected_contents` (pushing `""` when the file
is newly created and the accumulator is still `Unchanged`) never changes
the text denoted by an accumulator, and keeps it non-binary. -/
theorem postPass_invariant (P : Prop) [Decidable P] (c : SelectedContents)
    (hc : c.isBin = false) :
    (if P then c.push_str "" else c).isBin = false ∧
    (if P then c.push_str "" else c).textOrEmpty = c.textOrEmpty := by
  split
  · exact ⟨push_str_isBin c "" hc, by rw [push_str_textOrEmpty c "" hc, String.append_empty]⟩
  · exact ⟨hc, rfl⟩

/-- A file with no `Binary` section has no `Binary` section in its list. -/
theorem sections_not_binary_of_hasBinarySection_false {f : File}
    (h : f.hasBinarySection = false) : ∀ s ∈ f.sections, s.isBinarySection = false := by
  intro s hs
  by_contra hx
  have : f.hasBinarySection = true := by
    simp only [File.hasBinarySection, List.any_eq_true]
    exact ⟨s, hs, by simpa using hx⟩
  simp_all

/-- C1. Selection partition law: for every `File` with no `Binary`
section, with `(S, U) = get_selected_contents`, the text denoted by
`S.contents` (`Text` contents, or the empty text for `Unchanged`; the
value is proved never to be `Binary`) is exactly the concatenation, in
section order, of every `Unchanged` line together with each `Changed`
section's `Removed` lines with `is_checked = false` and `Added` lines
with `is_checked = true`; symmetrically, the text denoted by `U.contents`
is the concatenation of the `Unchanged` lines together with the `Removed`
lines with `is_checked = true` and the `Added` lines with
`is_checked = false`. -/
theorem c1_selection_partition_law (f : File) (h : f.hasBinarySection = false) :
    f.get_selected_contents.1.contents.isBin = false ∧
    f.get_selected_contents.2.contents.isBin = false ∧
    f.get_selected_contents.1.contents.textOrEmpty = specStream specKeepSelected f ∧
    f.get_selected_contents.2.contents.textOrEmpty = specStream specKeepUnselected f := by
  have hall := sections_not_binary_of_hasBinarySection_false h
  obtain ⟨ha1, ha2, ha3, ha4⟩ :=
    sectionsFold_invariant (selectedFileModeOf f) f.sections hall
      SelectedContents.Unchanged SelectedContents.Unchanged rfl rfl
  obtain ⟨hp1, hp2⟩ :=
    postPass_invariant
      (f.file_mode = FileMode.Absent ∧ selectedFileModeOf f ≠ FileMode.Absent ∧
        (f.sections.foldl (sectionStep (selectedFileModeOf f))
          (SelectedContents.Unchanged, SelectedContents.Unchanged)).1
          = SelectedContents.Unchanged)
      _ ha1
  obtain ⟨hq1, hq2⟩ :=
    postPass_invariant
      (f.file_mode = FileMode.Absent ∧ unselectedFileModeOf f ≠ FileMode.Absent ∧
        (f.sections.foldl (sectionStep (selectedFileModeOf f))
          (SelectedContents.Unchanged, SelectedContents.Unchanged)).2
          = SelectedContents.Unchanged)
      _ ha2
  simp only [File.get_selected_contents]
  refine ⟨hp1, hq1, ?_, ?_⟩
  · rw [hp2, ha3]
    simp [specStream, SelectedContents.textOrEmpty, String.empty_append]
  · rw [hq2, ha4]
    simp [specStream, SelectedContents.textOrEmpty, String.empty_append]

/-- Witness for C1: the partition law evaluated at `exampleFileA`. -/
theorem c1_selection_partition_law_witness :
    exampleFileA.hasBinarySection = false ∧
    (exampleFileA.get_selected_contents.1.contents.isBin = false ∧
     exampleFileA.get_selected_contents.2.contents.isBin = false ∧
     exampleFileA.get_selected_contents.1.contents.textOrEmpty
       = specStream specKeepSelected exampleFileA ∧
     exampleFileA.get_selected_contents.2.contents.textOrEmpty
       = specStream specKeepUnselected exampleFileA) :=
  ⟨by decide, c1_selection_partition_law exampleFileA (by decide)⟩

/-- C4 (amended). Empty-file creation: for every `File` with no `Binary`
section whose original `file_mode` is `Absent` and whose first `FileMode`
section is checked with a mode other than `Absent`, the selected result
carries that mode and its contents are a (possibly empty) `Text`, never
`Unchanged`. (Amendment: the claim as stated omits the no-`Binary`
hypothesis; a checked `Binary` section makes the selected contents
`Binary`, see the counterexample.) -/
theorem c4_empty_file_creation {mode : FileMode} (f : File)
    (hmode : f.file_mode = FileMode.Absent)
    (hsec : fileModeSectionOf f.sections = some (mode, true))
    (hm : mode ≠ FileMode.Absent)
    (hbin : f.hasBinarySection = false) :
    f.get_selected_contents.1.file_mode = mode ∧
    ∃ c, f.get_selected_contents.1.contents = SelectedContents.Text c := by
  have hsfm : selectedFileModeOf f = mode := by
    simp [selectedFileModeOf, hsec]
  have hall := sections_not_binary_of_hasBinarySection_false hbin
  obtain ⟨ha1, -, -, -⟩ :=
    sectionsFold_invariant (selectedFileModeOf f) f.sections hall
      SelectedContents.Unchanged SelectedContents.Unchanged rfl rfl
  simp only [File.get_selected_contents]
  refine ⟨hsfm, ?_⟩
  split_ifs with hcond
  · rw [hcond.2.2]
    exact ⟨"", rfl⟩
  · cases hc : (f.sections.foldl (sectionStep (selectedFileModeOf f))
        (SelectedContents.Unchanged, SelectedContents.Unchanged)).1 with
    | Unchanged =>
      exact absurd ⟨hmode, by rw [hsfm]; exact hm, hc⟩ hcond
    | Binary od nd =>
      rw [hc] at ha1
      simp [SelectedContents.isBin] at ha1
    | Text c =>
      exact ⟨c, rfl⟩

/-- Counterexample to C4 as stated: a file with original mode `Absent`
and a checked `FileMode(Unix 0o100644)` section, but also a checked
`Binary` section. Its selected contents are `Binary`, not a `Text`. -/
theorem c4_counterexample :
    (File.mk none ["f"] FileMode.Absent
      [Section.FileMode true (FileMode.Unix 33188),
       Section.Binary true none none]).file_mode = FileMode.Absent ∧
    fileModeSectionOf (File.mk none ["f"] FileMode.Absent
      [Section.FileMode true (FileMode.Unix 33188),
       Section.Binary true none none]).sections = some (FileMode.Unix 33188, true) ∧
    ∀ c, (File.mk none ["f"] FileMode.Absent
      [Section.FileMode true (FileMode.Unix 33188),
       Section.Binary true none none]).get_selected_contents.1.contents
        ≠ SelectedContents.Text c := by
  refine ⟨rfl, rfl, fun c h => ?_⟩
  have hX : (File.mk none ["f"] FileMode.Absent
      [Section.FileMode true (FileMode.Unix 33188),
       Section.Binary true none none]).get_selected_contents.1.contents
      = SelectedContents.Binary none none := rfl
  rw [hX] at h
  exact SelectedContents.noConfusion h

/-- Witness for C4 at a concrete new file whose only change is unchecked
(the selected contents become the empty `Text`). -/
theorem c4_empty_file_creation_witness :
    (File.mk none ["f"] FileMode.Absent
      [Section.FileMode true (FileMode.Unix 33188),
       Section.Changed [⟨false, ChangeType.Added, "x\n"⟩]]).file_mode = FileMode.Absent ∧
    fileModeSectionOf (File.mk none ["f"] FileMode.Absent
      [Section.FileMode true (FileMode.Unix 33188),
       Section.Changed [⟨false, ChangeType.Added, "x\n"⟩]]).sections
      = some (FileMode.Unix 33188, true) ∧
    ((File.mk none ["f"] FileMode.Absent
      [Section.FileMode true (FileMode.Unix 33188),
       Section.Changed [⟨false, ChangeType.Added, "x\n"⟩]]).get_selected_contents.1.file_mode
        = FileMode.Unix 33188 ∧
     ∃ c, (File.mk none ["f"] FileMode.Absent
      [Section.FileMode true (FileMode.Unix 33188),
       Section.Changed [⟨false, ChangeType.Added, "x\n"⟩]]).get_selected_contents.1.contents
        = SelectedContents.Text c) :=
  ⟨rfl, rfl,
    c4_empty_file_creation
      (File.mk none ["f"] FileMode.Absent
        [Section.FileMode true (FileMode.Unix 33188),
         Section.Changed [⟨false, ChangeType.Added, "x\n"⟩]])
      rfl rfl (by decide) (by decide)⟩

/-- C2 (amended). For every non-read-only `RecordState`, `apply_changes`
processes the files in order; for a file whose selected file mode is
`Absent` it performs `remove_file(write_root / path)` first, and it
performs no other filesystem operation for that file *provided the
selected contents are `Unchanged`*. (Amendment: in the source the
`match` on the selected contents is not an `else` branch of the
`file_mode == Absent` test, so selected contents of `Text` or `Binary`
additionally trigger the corresponding write or copy operations — see
the counterexample.) -/
theorem c2_apply_changes_absent (write_root : FsPath) (state : RecordState)
    (hro : state.is_read_only = false) (f : File) (_hf : f ∈ state.files)
    (hm : f.get_selected_contents.1.file_mode = FileMode.Absent) :
    applyChangesOps write_root state = state.files.flatMap (applyFileOps write_root) ∧
    (applyFileOps write_root f).head? = some (FsOp.remove_file (write_root ++ f.path)) ∧
    (f.get_selected_contents.1.contents = SelectedContents.Unchanged →
      applyFileOps write_root f = [FsOp.remove_file (write_root ++ f.path)]) := by
  refine ⟨by simp [applyChangesOps, hro], ?_, ?_⟩
  · simp only [applyFileOps, hm]
    cases f.get_selected_contents.1.contents <;> simp
  · intro hc
    simp [applyFileOps, hm, hc]

/-- Counterexample to C2 as stated: for `c2ModeAbsentTextFile` the
selected file mode is `Absent`, yet `apply_changes` also performs
`create_dir_all` and `write_file` for it (the contents branch is not an
`else` case). -/
theorem c2_counterexample :
    c2ModeAbsentTextFile.get_selected_contents.1.file_mode = FileMode.Absent ∧
    applyFileOps [] c2ModeAbsentTextFile
      = [FsOp.remove_file ["right"], FsOp.create_dir_all [],
         FsOp.write_file ["right"] "left\n"] ∧
    applyFileOps [] c2ModeAbsentTextFile ≠ [FsOp.remove_file ["right"]] := by
  refine ⟨rfl, rfl, ?_⟩
  decide

/-- Witness for C2 (amended) at a one-file state performing a clean
deletion. -/
theorem c2_apply_changes_absent_witness :
    (RecordState.mk false [] [c2DeletionFile]).is_read_only = false ∧
    c2DeletionFile ∈ (RecordState.mk false [] [c2DeletionFile]).files ∧
    c2DeletionFile.get_selected_contents.1.file_mode = FileMode.Absent ∧
    (applyChangesOps [] (RecordState.mk false [] [c2DeletionFile])
      = (RecordState.mk false [] [c2DeletionFile]).files.flatMap (applyFileOps []) ∧
     (applyFileOps [] c2DeletionFile).head?
       = some (FsOp.remove_file ([] ++ c2DeletionFile.path)) ∧
     (c2DeletionFile.get_selected_contents.1.contents = SelectedContents.Unchanged →
       applyFileOps [] c2DeletionFile
         = [FsOp.remove_file ([] ++ c2DeletionFile.path)])) :=
  ⟨rfl, by simp, by decide,
    c2_apply_changes_absent [] (RecordState.mk false [] [c2DeletionFile]) rfl
      c2DeletionFile (by simp) (by decide)⟩

/-- After `set_checked c`, every checkable boolean of a section is `c`. -/
theorem checkFlags_set_checked (s : Section) (c : Bool) :
    ∀ b ∈ (s.set_checked c).checkFlags, b = c := by
  cases s <;> simp [Section.set_checked, Section.checkFlags]

/-- `set_checked` preserves the number of checkable booleans. -/
theorem checkFlags_length_set_checked (s : Section) (c : Bool) :
    (s.set_checked c).checkFlags.length = s.checkFlags.length := by
  cases s <;> simp [Section.set_checked, Section.checkFlags]

/-- The `seen_value` loop returns `True` on a nonempty all-true flag
list. -/
theorem tristateOfFlags_all_true (l : List Bool) (h : ∀ b ∈ l, b = true)
    (hne : l ≠ []) : tristateOfFlags none l = Tristate.True := by
  have aux : ∀ m : List Bool, (∀ b ∈ m, b = true) →
      tristateOfFlags (some true) m = Tristate.True := by
    intro m
    induction m with
    | nil => intro _; rfl
    | cons b rest ih =>
      intro hm
      have hb : b = true := hm b (by simp)
      subst hb
      exact ih fun x hx => hm x (by simp [hx])
  cases l with
  | nil => exact absurd rfl hne
  | cons b rest =>
    have hb : b = true := h b (by simp)
    subst hb
    exact aux rest fun x hx => h x (by simp [hx])

/-- The `seen_value` loop returns `False` on an all-false flag list
(including the empty one). -/
theorem tristateOfFlags_all_false (l : List Bool) (h : ∀ b ∈ l, b = false) :
    tristateOfFlags none l = Tristate.False := by
  have aux : ∀ m : List Bool, (∀ b ∈ m, b = false) →
      tristateOfFlags (some false) m = Tristate.False := by
    intro m
    induction m with
    | nil => intro _; rfl
    | cons b rest ih =>
      intro hm
      have hb : b = false := hm b (by simp)
      subst hb
      exact ih fun x hx => hm x (by simp [hx])
  cases l with
  | nil => rfl
  | cons b rest =>
    have hb : b = false := h b (by simp)
    subst hb
    exact aux rest fun x hx => h x (by simp [hx])

/-- A section with a selectable item has at least one checkable
boolean. -/
theorem checkFlags_ne_nil_of_hasSelectableItem {s : Section}
    (h : s.hasSelectableItem = true) : s.checkFlags ≠ [] := by
  cases s <;> simp_all [Section.hasSelectableItem, Section.checkFlags]

/-- C5 (amended). Tristate monotonicity: for every `Section` or `File`
having at least one selectable item (a `Changed` line, a `FileMode` item,
or a `Binary` item), `set_checked true` makes its tristate `True` and
`set_checked false` makes it `False`. (Amendment: the claim as stated
asserts the `set_checked true` half for *every* node; a node with no
selectable item — e.g. a bare `Unchanged` section or a file with no
sections — reports `False` even after `set_checked true`, see the
counterexample.) -/
theorem c5_tristate_monotonicity :
    (∀ s : Section, s.hasSelectableItem = true →
      (s.set_checked true).tristate = Tristate.True ∧
      (s.set_checked false).tristate = Tristate.False) ∧
    (∀ f : File, f.hasSelectableItem = true →
      (f.set_checked true).tristate = Tristate.True ∧
      (f.set_checked false).tristate = Tristate.False) := by
  constructor
  · intro s hs
    constructor
    · simp only [Section.tristate]
      refine tristateOfFlags_all_true _ (checkFlags_set_checked s true) ?_
      intro hnil
      have hlen := checkFlags_length_set_checked s true
      rw [hnil] at hlen
      exact checkFlags_ne_nil_of_hasSelectableItem hs
        (List.eq_nil_of_length_eq_zero hlen.symm)
    · simp only [Section.tristate]
      exact tristateOfFlags_all_false _ (checkFlags_set_checked s false)
  · intro f hf
    have hmem : ∀ (c : Bool) (b : Bool),
        b ∈ (f.set_checked c).sections.flatMap Section.checkFlags → b = c := by
      intro c b hb
      rw [List.mem_flatMap] at hb
      obtain ⟨s', hs', hbs⟩ := hb
      simp only [File.set_checked, List.mem_map] at hs'
      obtain ⟨s, _, rfl⟩ := hs'
      exact checkFlags_set_checked s c b hbs
    constructor
    · simp only [File.tristate]
      refine tristateOfFlags_all_true _ (hmem true) ?_
      obtain ⟨s, hs, hsel⟩ : ∃ s ∈ f.sections, s.hasSelectableItem = true := by
        simpa only [File.hasSelectableItem, List.any_eq_true] using hf
      have hne : (s.set_checked true).checkFlags ≠ [] := by
        intro hnil
        have hlen := checkFlags_length_set_checked s true
        rw [hnil] at hlen
        exact checkFlags_ne_nil_of_hasSelectableItem hsel
          (List.eq_nil_of_length_eq_zero hlen.symm)
      obtain ⟨b, hb⟩ : ∃ b, b ∈ (s.set_checked true).checkFlags := by
        cases hx : (s.set_checked true).checkFlags with
        | nil => exact absurd hx hne
        | cons b rest => exact ⟨b, by simp [hx]⟩
      intro hnil
      have hmem2 : b ∈ (f.set_checked true).sections.flatMap Section.checkFlags := by
        rw [List.mem_flatMap]
        refine ⟨s.set_checked true, ?_, hb⟩
        simp only [File.set_checked, List.mem_map]
        exact ⟨s, hs, rfl⟩
      rw [hnil] at hmem2
      exact absurd hmem2 (List.not_mem_nil b)
    · simp only [File.tristate]
      exact tristateOfFlags_all_false _ (hmem false)

/-- Counterexample to C5 as stated: a bare `Unchanged` section, and a
file with no sections, still have tristate `False` after
`set_checked(true)`. -/
theorem c5_counterexample :
    ((Section.Unchanged ["a\n"]).set_checked true).tristate ≠ Tristate.True ∧
    ((File.mk none ["f"] (FileMode.Unix 33188) []).set_checked true).tristate
      ≠ Tristate.True := by
  constructor <;> decide

/-- Witness for C5 (amended) at a concrete selectable section and file. -/
theorem c5_tristate_monotonicity_witness :
    (Section.FileMode false (FileMode.Unix 33188)).hasSelectableItem = true ∧
    ((Section.FileMode false (FileMode.Unix 33188)).set_checked true).tristate
      = Tristate.True ∧
    (File.mk none ["f"] (FileMode.Unix 33188)
      [Section.Changed [⟨true, ChangeType.Added, "x\n"⟩]]).hasSelectableItem = true ∧
    ((File.mk none ["f"] (FileMode.Unix 33188)
      [Section.Changed [⟨true, ChangeType.Added, "x\n"⟩]]).set_checked false).tristate
      = Tristate.False :=
  ⟨by decide,
   (c5_tristate_monotonicity.1 (Section.FileMode false (FileMode.Unix 33188)) (by decide)).1,
   by decide,
   (c5_tristate_monotonicity.2
     (File.mk none ["f"] (FileMode.Unix 33188)
       [Section.Changed [⟨true, ChangeType.Added, "x\n"⟩]]) (by decide)).2⟩

/-- Toggling one changed line twice restores it. -/
theorem toggle_line_involution (l : SectionChangedLine) :
    ({ { l with is_checked := !l.is_checked } with
        is_checked := !(!l.is_checked) } : SectionChangedLine) = l := by
  cases l
  simp

/-- `Section::toggle_all` is an involution. -/
theorem section_toggle_all_involution (s : Section) :
    s.toggle_all.toggle_all = s := by
  cases s with
  | Changed lines =>
    simp only [Section.toggle_all, List.map_map]
    have : ∀ l : SectionChangedLine,
        ((fun line => { line with is_checked := !line.is_checked }) ∘
         (fun line => { line with is_checked := !line.is_checked })) l = l := by
      intro l
      cases l
      simp
    rw [List.map_congr_left fun l _ => this l]
    simp
  | Unchanged lines => rfl
  | FileMode is_checked mode => simp [Section.toggle_all]
  | Binary is_checked od nd => simp [Section.toggle_all]

/-- `Section::toggle_all` negates exactly the checkable booleans. -/
theorem section_toggle_all_checkFlags (s : Section) :
    s.toggle_all.checkFlags = s.checkFlags.map (fun b => !b) := by
  cases s <;> simp [Section.toggle_all, Section.checkFlags]

/-- `Section::toggle_all` changes nothing but the checkable booleans:
normalising them afterwards with `set_checked false` gives the same
section as normalising the original. -/
theorem section_toggle_all_skeleton (s : Section) :
    s.toggle_all.set_checked false = s.set_checked false := by
  cases s <;> simp [Section.toggle_all, Section.set_checked, List.map_map]

/-- C9. `toggle_all` is an involution on every `File` and `Section`, and
a single call negates exactly the `is_checked` flags of every `Changed`
line, `FileMode` section, and `Binary` section, modifying nothing else
(normalising all flags afterwards yields the same value as normalising
the original). -/
theorem c9_toggle_all_involution :
    (∀ s : Section,
      s.toggle_all.toggle_all = s ∧
      s.toggle_all.checkFlags = s.checkFlags.map (fun b => !b) ∧
      s.toggle_all.set_checked false = s.set_checked false) ∧
    (∀ f : File,
      f.toggle_all.toggle_all = f ∧
      f.toggle_all.sections.flatMap Section.checkFlags
        = (f.sections.flatMap Section.checkFlags).map (fun b => !b) ∧
      f.toggle_all.set_checked false = f.set_checked false) := by
  constructor
  · intro s
    exact ⟨section_toggle_all_involution s, section_toggle_all_checkFlags s,
      section_toggle_all_skeleton s⟩
  · intro f
    refine ⟨?_, ?_, ?_⟩
    · simp only [File.toggle_all, List.map_map]
      have heq : ∀ s ∈ f.sections,
          (Section.toggle_all ∘ Section.toggle_all) s = id s :=
        fun s _ => section_toggle_all_involution s
      cases f
      simp only [List.map_congr_left heq, List.map_id]
    · simp only [File.toggle_all]
      induction f.sections with
      | nil => simp
      | cons s ss ih =>
        simp only [List.map_cons, List.flatMap_cons, List.map_append, ih,
          section_toggle_all_checkFlags]
    · simp only [File.toggle_all, File.set_checked, List.map_map]
      have heq : ∀ s ∈ f.sections,
          ((Section.set_checked · false) ∘ Section.toggle_all) s
            = (Section.set_checked · false) s :=
        fun s _ => section_toggle_all_skeleton s
      cases f
      simp only [List.map_congr_left heq]

/-- C6 (amended). The derived `FileMode` ordering is by variant
(`Unix(_)` precedes `Absent`) and, between two `Unix` values, by numeric
mode. (Amendment: the claim as stated says the order agrees with
lexicographic comparison of the rendered strings, which fails between
two `Unix` values, e.g. `Unix(0o17)` vs `Unix(0o100)` — see the
counterexample.) -/
theorem c6_filemode_order (a b : FileMode) :
    FileMode.lt a b = true ↔
      ((∃ x y, a = FileMode.Unix x ∧ b = FileMode.Unix y ∧ x < y) ∨
       ((∃ x, a = FileMode.Unix x) ∧ b = FileMode.Absent)) := by
  cases a <;> cases b <;> simp [FileMode.lt]

/-- Counterexample to C6 as stated: `Unix(0o17) < Unix(0o100)` in the
derived order (15 < 64 numerically), but the rendered strings compare
the other way (`"17"` is lexicographically greater than `"100"`). -/
theorem c6_counterexample :
    FileMode.lt (FileMode.Unix 15) (FileMode.Unix 64) = true ∧
    lexLt (FileMode.Unix 15).displayChars (FileMode.Unix 64).displayChars = false := by
  constructor <;> decide

/-- C7 (amended). For an existing, non-symlink file,
`RealFilesystem::read_file_info` reports `Unix(0o100755)` exactly when
the *others*-execute bit (`0o001`) of the permission mode is set, and
`Unix(0o100644)` otherwise. (Amendment: the claim — following the spec —
says the *user*-execute bit (`0o100`); the source tests
`permissions.mode() & 0o001`, see the counterexample at mode `0o744`.) -/
theorem c7_read_file_info_executable (m : Nat) :
    read_file_info_mode true false m = FileMode.Unix 0o100755 ↔ m &&& 0o001 = 0o001 := by
  simp only [read_file_info_mode, Bool.not_true]
  split
  · simp_all
  · split
    · rename_i h
      simp only [beq_iff_eq] at h
      simp [h]
    · rename_i h
      simp only [beq_iff_eq] at h
      constructor
      · intro hx
        exact absurd hx (by simp)
      · intro hx
        exact absurd hx h

/-- Counterexample to C7 as stated: on permission mode `0o744` the
user-execute bit (bit 6, value `0o100`) is set, yet the code classifies
the file as non-executable (`Unix(0o100644)`). -/
theorem c7_counterexample :
    ¬(read_file_info_mode true false 0o744 = FileMode.Unix 0o100755 ↔
      Nat.testBit 0o744 6 = true) := by
  decide

/-- Full specification of the marker-length search: the result passes the
collision test, is at least the starting length, and is the least such
length (every smaller candidate at or above the start fails the test). -/
theorem findMarkerLen_spec (all : List Char) :
    ∀ k len, all.length + 1 - len ≤ k →
      markersOk all (findMarkerLen all len) = true ∧
      len ≤ findMarkerLen all len ∧
      ∀ m, len ≤ m → m < findMarkerLen all len → markersOk all m = false := by
  intro k
  induction k with
  | zero =>
    intro len hk
    have hok : markersOk all len = true := markersOk_of_length_lt all len (by omega)
    rw [findMarkerLen, if_pos hok]
    exact ⟨hok, Nat.le_refl len, fun m hm1 hm2 => absurd hm1 (by omega)⟩
  | succ k ih =>
    intro len hk
    by_cases hok : markersOk all len = true
    · rw [findMarkerLen, if_pos hok]
      exact ⟨hok, Nat.le_refl len, fun m hm1 hm2 => absurd hm1 (by omega)⟩
    · rw [findMarkerLen, if_neg hok]
      have hle := le_of_not_markersOk hok
      obtain ⟨h1, h2, h3⟩ := ih (len + 1) (by omega)
      refine ⟨h1, by omega, ?_⟩
      intro m hm1 hm2
      rcases Nat.eq_or_lt_of_le hm1 with heq | hlt
      · rw [← heq]
        exact Bool.eq_false_iff.mpr hok
      · exact h3 m (by omega) hm2

/-- C10. `make_conflict_markers` terminates on every input: the search
(formalised as the well-founded recursion `findMarkerLen`, whose measure
is justified by exactly the loop's argument — each iteration increases
the candidate length by one, and once the length exceeds the
concatenation `base ++ left ++ right` no candidate marker can occur as a
substring of it) returns a length between 7 and
`max 7 (|base ++ left ++ right| + 1)` whose markers are collision-free. -/
theorem c10_make_conflict_markers_terminates (base left right : String) :
    7 ≤ findMarkerLen (base ++ left ++ right).toList 7 ∧
    findMarkerLen (base ++ left ++ right).toList 7
      ≤ max 7 ((base ++ left ++ right).toList.length + 1) ∧
    markersOk (base ++ left ++ right).toList
      (findMarkerLen (base ++ left ++ right).toList 7) = true ∧
    ∀ m, (base ++ left ++ right).toList.length < m →
      markersOk (base ++ left ++ right).toList m = true := by
  obtain ⟨h1, h2, h3⟩ :=
    findMarkerLen_spec (base ++ left ++ right).toList
      ((base ++ left ++ right).toList.length + 1 - 7) 7 (Nat.le_refl _)
  refine ⟨h2, ?_, h1, fun m hm => markersOk_of_length_lt _ m hm⟩
  by_contra hgt
  have hB : markersOk (base ++ left ++ right).toList
      (max 7 ((base ++ left ++ right).toList.length + 1)) = true :=
    markersOk_of_length_lt _ _ (by omega)
  have hB' := h3 (max 7 ((base ++ left ++ right).toList.length + 1))
    (by omega) (by omega)
  rw [hB'] at hB
  exact Bool.false_ne_true hB

/-- C3. Conflict-marker safety: `make_conflict_markers` returns four
markers built by repeating `<`, `|`, `=`, `>` to one common length `n ≥ 7`
such that none of the four occurs as a substring of
`base ++ left ++ right`, and `n` is the smallest length `≥ 7` with that
property (every smaller candidate length has some colliding marker). -/
theorem c3_conflict_marker_safety (base left right : String) :
    ∃ n,
      make_conflict_markers base left right =
        (String.mk (List.replicate n '<'), String.mk (List.replicate n '|'),
         String.mk (List.replicate n '='), String.mk (List.replicate n '>')) ∧
      7 ≤ n ∧
      containsSub (base ++ left ++ right).toList (List.replicate n '<') = false ∧
      containsSub (base ++ left ++ right).toList (List.replicate n '|') = false ∧
      containsSub (base ++ left ++ right).toList (List.replicate n '=') = false ∧
      containsSub (base ++ left ++ right).toList (List.replicate n '>') = false ∧
      ∀ m, 7 ≤ m → m < n → markersOk (base ++ left ++ right).toList m = false := by
  obtain ⟨h1, h2, h3⟩ :=
    findMarkerLen_spec (base ++ left ++ right).toList
      ((base ++ left ++ right).toList.length + 1 - 7) 7 (Nat.le_refl _)
  refine ⟨findMarkerLen (base ++ left ++ right).toList 7, rfl, h2, ?_, ?_, ?_, ?_, h3⟩ <;>
    · simp only [markersOk, Bool.and_eq_true, Bool.not_eq_true'] at h1
      tauto

/-- C8. When the merge-conflict parser is in the `Right` state and the
current line is classified as a right marker, it emits a `Changed`
section whose lines are, in order, every accumulated left line as
`Added`, then every accumulated base line as `Removed`, then every
accumulated right line as `Added`, all with `is_checked = false`, and
returns to the `Empty` state. -/
theorem c8_merge_right_emission (left_marker base_start_marker base_end_marker
    right_marker : String) (left_lines base_lines right_lines : List String)
    (line : String)
    (h : classifyMarker left_marker base_start_marker base_end_marker right_marker line
      = some MarkerType.Right) :
    stepLine left_marker base_start_marker base_end_marker right_marker
        (MergeState.Right left_lines base_lines right_lines) line =
      (MergeState.Empty, some (Section.Changed (
        left_lines.map (fun l => ⟨false, ChangeType.Added, l⟩) ++
        base_lines.map (fun l => ⟨false, ChangeType.Removed, l⟩) ++
        right_lines.map (fun l => ⟨false, ChangeType.Added, l⟩)))) := by
  unfold stepLine
  rw [h]
  rfl

/-- Witness for C8 with length-7 markers, one accumulated line per side,
and the line `">>>>>>>\n"`. -/
theorem c8_merge_right_emission_witness :
    classifyMarker "<<<<<<<" "|||||||" "=======" ">>>>>>>" ">>>>>>>\n"
      = some MarkerType.Right ∧
    stepLine "<<<<<<<" "|||||||" "=======" ">>>>>>>"
        (MergeState.Right ["L\n"] ["B\n"] ["R\n"]) ">>>>>>>\n" =
      (MergeState.Empty, some (Section.Changed (
        (["L\n"] : List String).map (fun l => ⟨false, ChangeType.Added, l⟩) ++
        (["B\n"] : List String).map (fun l => ⟨false, ChangeType.Removed, l⟩) ++
        (["R\n"] : List String).map (fun l => ⟨false, ChangeType.Added, l⟩)))) :=
  ⟨by decide,
    c8_merge_right_emission "<<<<<<<" "|||||||" "=======" ">>>>>>>"
      ["L\n"] ["B\n"] ["R\n"] ">>>>>>>\n" (by decide)⟩

end ScmRecord
